import Mathlib

/-!
Verification development for the `langgraph-aws-bedrock` repository.

Shallow embedding of the query-answering workflow
(`src/workflows/agent_workflow.py`), the knowledge-base ingestion service
(`src/services/knowledge_base_service.py`) and the upload route
(`src/routes/knowledge_base.py`).

External collaborators (the Bedrock chat client, the two Pinecone indexes,
the reranker, the text splitter, the PDF/DOCX readers, the LangSmith run
tree) are modelled as explicit parameters: their outputs are inputs of the
embedded functions.  Everything the repository itself computes is embedded
faithfully from the source.
-/

namespace RagWorkflow

/-! ## Python string primitives used by the source -/

/-- Models Python `str.startswith` on explicit character lists:
`listStartsWith needle hay` is true iff `needle` is a prefix of `hay`. -/
def listStartsWith : List Char → List Char → Bool
  | [], _ => true
  | _ :: _, [] => false
  | a :: as, b :: bs => a = b && listStartsWith as bs

/-- Models the Python substring test `needle in hay` on character lists:
true iff `needle` occurs contiguously inside `hay`. -/
def pyContains (needle : List Char) : List Char → Bool
  | [] => needle.isEmpty
  | c :: rest => listStartsWith needle (c :: rest) || pyContains needle rest

/-- Models Python `str.endswith` on character lists. -/
def listEndsWith (suffix l : List Char) : Bool :=
  listStartsWith suffix.reverse l.reverse

/-- Models Python `str.split(".")` on character lists: maximal runs of
non-dot characters between the dots, with empty segments kept, so the
result is always non-empty (for the empty string it is `[[]]`). -/
def splitDot : List Char → List (List Char)
  | [] => [[]]
  | c :: cs =>
    if c = '.' then [] :: splitDot cs
    else
      match splitDot cs with
      | [] => [[c]]
      | s :: rest => (c :: s) :: rest

/-- Models Python `str.lower` character-wise (ASCII letters, as
`Char.toLower` does). -/
def pyLower (s : String) : String :=
  String.mk (s.toList.map Char.toLower)

/-- ASCII whitespace characters stripped by Python `str.strip()`
(space, tab, newline, carriage return, vertical tab, form feed). -/
def pyIsSpace (c : Char) : Bool :=
  c = ' ' || c = '\t' || c = '\n' || c = '\r' ||
    c = Char.ofNat 11 || c = Char.ofNat 12

/-- Models Python `str.strip()`: drop whitespace from both ends. -/
def pyStrip (s : String) : String :=
  String.mk (((s.toList.dropWhile pyIsSpace).reverse.dropWhile pyIsSpace).reverse)

/-- An ASCII apostrophe, used by the fixed refusal string of the
`cannot_answer` node. -/
def apostrophe : Char := Char.ofNat 39

/-- Concatenation of a list of strings in order (left fold with `++`),
the reference notion of "concatenation of fragments". -/
def concatFragments (l : List String) : String :=
  l.foldl (fun r s => r ++ s) ""

/-! ## Retrieval data model

A Pinecone search hit, as consumed by `AgentWorkFlow.__merge_chunks`
(`agent_workflow.py` lines 101-124): a dict with an `_id` key, a `_score`
key and a `fields` payload carrying `chunk_text`.  The score is modelled
as a rational number: the only operation the source performs on it is
order comparison. -/

structure Hit where
  _id : String
  _score : ℚ
  chunk_text : String
deriving DecidableEq, Repr

/-- Candidate document handed to the reranker by `__merge_chunks`:
`{"_id": hit["_id"], "chunk_text": hit["fields"]["chunk_text"]}`. -/
structure Candidate where
  _id : String
  chunk_text : String
deriving DecidableEq, Repr

/-- One entry of the reranker's `result.data`: wraps the candidate
document (read back via `doc["document"]["chunk_text"]` in
`generate_answer_node`) and the rerank score. -/
structure RankedDoc where
  document : Candidate
  score : ℚ
deriving DecidableEq, Repr

/-! ## Merge and dedup (`AgentWorkFlow.__merge_chunks`)

The source deduplicates with a Python dict comprehension
`{hit["_id"]: hit for hit in h1["result"]["hits"] + h2["result"]["hits"]}`
and takes `.values()`.  Python dict semantics: keys appear in
first-insertion order, and the value stored for a key is the one from the
last occurrence of that key.  `lastWithId`, `keyOrder` and `pyDictDedup`
below embed exactly that. -/

/-- The value the dict comprehension finally stores under key `i`: the
last hit of `l` whose `_id` equals `i` (or `none` if there is none). -/
def lastWithId (l : List Hit) (i : String) : Option Hit :=
  l.foldl (fun acc h => if h._id = i then some h else acc) none

/-- The keys of a Python dict built by successive insertion, in
first-insertion order: a key already seen is skipped, a new key is
appended and remembered. -/
def keyOrderAux (seen : List String) : List String → List String
  | [] => []
  | x :: xs =>
    if x ∈ seen then keyOrderAux seen xs
    else x :: keyOrderAux (x :: seen) xs

/-- First-insertion order of the distinct keys of `l`. -/
def keyOrder (l : List String) : List String :=
  keyOrderAux [] l

/-- Embeds `{hit["_id"]: hit for hit in l}.values()`: one hit per
distinct `_id` of `l`, in first-occurrence order of the ids, each being
the last hit of `l` carrying that id. -/
def pyDictDedup (l : List Hit) : List Hit :=
  (keyOrder (l.map Hit._id)).filterMap (lastWithId l)

/-- Stable descending insertion by `_score`: the new element is placed
before the first element whose score is less than or equal to its own.
Elements already in the list that compare equal keep their earlier
position relative to elements inserted later (see `sortDesc`). -/
def insertDesc (x : Hit) : List Hit → List Hit
  | [] => [x]
  | y :: ys => if y._score ≤ x._score then x :: y :: ys else y :: insertDesc x ys

/-- Stable sort by `_score` descending, embedding Python
`sorted(deduped_hits, key=lambda x: x["_score"], reverse=True)`.
Python's sort is stable and `reverse=True` preserves the original order
of elements with equal keys; a stable sort's output is uniquely
determined by the key order and the input order, so this right-fold
insertion sort (which is stable descending) computes the same list. -/
def sortDesc (l : List Hit) : List Hit :=
  l.foldr insertDesc []

/-- Projection to the rerank input format, embedding
`{"_id": hit["_id"], "chunk_text": hit["fields"]["chunk_text"]}`. -/
def toCandidate (h : Hit) : Candidate :=
  ⟨h._id, h.chunk_text⟩

/-- The deduplicated, score-descending hit list of
`AgentWorkFlow.__merge_chunks` before the final projection
(`deduped_hits` then `sorted_hits` in the source).  `h1` is the first
argument of `__merge_chunks` and `h2` the second. -/
def mergeSortedHits (h1 h2 : List Hit) : List Hit :=
  sortDesc (pyDictDedup (h1 ++ h2))

/-- Embeds `AgentWorkFlow.__merge_chunks` (lines 101-124): dedup by
`_id`, sort by `_score` descending, project to `{_id, chunk_text}`. -/
def mergeChunks (h1 h2 : List Hit) : List Candidate :=
  (mergeSortedHits h1 h2).map toCandidate

/-! ## Context check (`AgentWorkFlow.check_context_node`, lines 74-99)

The node sends the prompt to the model and computes
`{"has_context": "YES" in response.content[0]["text"].upper()}`.
The model's response text is an input of the embedding.  The computation
is total in the response text: it cannot raise, whatever the text is. -/

/-- Embeds `"YES" in response.content[0]["text"].upper()`. -/
def checkContextHasContext (responseText : String) : Bool :=
  pyContains "YES".toList (responseText.toList.map Char.toUpper)

/-- Spec-side notion for C3, following the spec words "the response text
contains the substring YES case-insensitively": after upper-casing, the
three characters Y, E, S occur contiguously. -/
def containsYesCaseInsensitive (responseText : String) : Prop :=
  ∃ l r, responseText.toList.map Char.toUpper = l ++ "YES".toList ++ r

/-! ## Retrieval node (`AgentWorkFlow.retrieve_rag_node`, lines 126-167) -/

/-- The partial state update returned by `retrieve_rag_node`: the
short-circuit branch returns `{"has_documents": False}` and leaves
`documents` absent (`none`); otherwise both keys are set. -/
structure RetrieveUpdate where
  has_documents : Bool
  documents : Option (List RankedDoc)
deriving DecidableEq, Repr

/-- Embeds `retrieve_rag_node`.  `dense` and `sparse` are the hit lists
returned by the two index searches; `rerank` is the external
`pinecone.inference.rerank` call on the merged candidates.  The source
short-circuits when both hit lists are empty, otherwise merges with the
sparse results as first argument and the dense results as second
(line 153: `self.__merge_chunks(sparse_results, dense_results)`), calls
the reranker and returns `{"has_documents": bool(documents),
"documents": documents}`. -/
def retrieveRagNode (dense sparse : List Hit)
    (rerank : List Candidate → List RankedDoc) : RetrieveUpdate :=
  if dense.isEmpty && sparse.isEmpty then
    ⟨false, none⟩
  else
    let documents := rerank (mergeChunks sparse dense)
    ⟨!documents.isEmpty, some documents⟩

/-! ## Generation node (`AgentWorkFlow.generate_answer_node`, lines 169-227) -/

/-- One chunk of the model's streamed response: `content` is the list of
content blocks (the node reads `chunk.content[0]["text"]` when
`chunk.content` is truthy, i.e. a non-empty list), `usage_metadata` is
the optional usage dict (`input_tokens`, `output_tokens`). -/
structure StreamChunk where
  content : List String
  usage_metadata : Option (Nat × Nat)
deriving DecidableEq, Repr

/-- Accumulator of the `async for` loop of `generate_answer_node`:
the fragments pushed through the stream writer in order, the
accumulated `response_text`, and the token counters. -/
structure GenAccum where
  fragments : List String
  answer : String
  inputTokens : Nat
  outputTokens : Nat
deriving DecidableEq, Repr

/-- One iteration of the `async for chunk in self.__client.astream`
loop: if the chunk has content, append `chunk.content[0]["text"]` to
`response_text` and write `{"answer": text}` to the stream writer; if it
has usage metadata, add the token counts. -/
def genStep (acc : GenAccum) (c : StreamChunk) : GenAccum :=
  let acc1 :=
    match c.content with
    | [] => acc
    | t :: _ =>
      { acc with fragments := acc.fragments ++ [t], answer := acc.answer ++ t }
  match c.usage_metadata with
  | none => acc1
  | some u =>
    { acc1 with
      inputTokens := acc1.inputTokens + u.1
      outputTokens := acc1.outputTokens + u.2 }

/-- Embeds the whole loop of `generate_answer_node` over the chunks the
model streams; the node then reports usage once and returns
`{"answer": response_text}`. -/
def generateAnswerNode (chunks : List StreamChunk) : GenAccum :=
  chunks.foldl genStep ⟨[], "", 0, 0⟩

/-! ## Cannot-answer node (`AgentWorkFlow.cannot_answer_node`, lines 262-270) -/

/-- The fixed refusal string returned by `cannot_answer_node`:
"I'm sorry, but I cannot provide an answer based on the given input."
(the apostrophe is spliced in as a character). -/
def refusalText : String :=
  "I" ++ String.mk [apostrophe] ++
    "m sorry, but I cannot provide an answer based on the given input."

/-- Embeds `cannot_answer_node`: a constant update
`{"answer": refusalText}`. -/
def cannotAnswerNode : String := refusalText

/-! ## Conditional edges (`check_context_condition`,
`retrieve_rag_condition`, lines 272-280) -/

/-- Embeds `check_context_condition`: routing key from the state. -/
def checkContextCondition (has_context : Bool) : String :=
  if has_context then "has_context" else "no_context"

/-- Embeds `retrieve_rag_condition`: routing key from the state. -/
def retrieveRagCondition (has_documents : Bool) : String :=
  if has_documents then "has_documents" else "no_documents"

/-! ## The compiled graph run and the streaming interface
(`AgentWorkFlow.__build_graph`, lines 41-72, and `AgentWorkFlow.stream`,
lines 282-298)

`stream` iterates `self.__app.astream(input={"prompt": prompt},
stream_mode=["values", "updates", "custom", "messages", "checkpoints",
"tasks"])`, which yields `(mode, chunk)` pairs, and yields
`chunk["answer"]` whenever the mode is `"custom"` or `"values"` and
`chunk.get("answer")` is truthy.

LangGraph semantics embedded here:
* `values` events carry the full state: one for the input, then one
  after every super-step; `chunk.get("answer")` is `None` until a node
  has returned an `answer` key.
* `updates` events carry `{node_name: update_dict}` after every
  super-step, so `chunk.get("answer")` is always `None` for them (the
  answer sits one level deeper); they are filtered out by the mode check
  anyway.
* `custom` events are the writer payloads `{"answer": fragment}` pushed
  by `generate_answer_node` while it runs, in order.
* `messages`, `checkpoints` and `tasks` events carry payloads that are
  not plain state dicts; the mode check filters them before any access,
  so they are omitted from the event list.

The graph topology (`__build_graph`): entry `check_context`; conditional
edge to `retrieve_rag` (key "has_context") or `cannot_answer`
(key "no_context"); from `retrieve_rag` conditional edge to
`generate_answer` (key "has_documents") or `cannot_answer`
(key "no_documents"); `generate_answer` → END; `cannot_answer` has no
outgoing edge and therefore also ends the run. -/

/-- Stream modes requested by `AgentWorkFlow.stream`. -/
inductive StreamMode where
  | values
  | updates
  | custom
deriving DecidableEq, Repr

/-- One `(mode, chunk)` pair yielded by `astream`; `answerField` is what
`chunk.get("answer")` evaluates to on that payload. -/
structure Event where
  mode : StreamMode
  answerField : Option String
deriving DecidableEq, Repr

/-- External calls a run can perform, in order of occurrence in the
source: the blocking context-check invocation, the dense and sparse
index searches, the rerank call, the streaming generation call. -/
inductive ExtCall where
  | invokeCheck
  | searchDense
  | searchSparse
  | rerankCall
  | streamGenerate
deriving DecidableEq, Repr

/-- All run-relevant behaviour of the external collaborators for one
prompt: the context-check response text, the two indexes' hit lists, the
reranker function and the generation stream's chunks. -/
structure RunEnv where
  prompt : String
  checkResponseText : String
  denseHits : List Hit
  sparseHits : List Hit
  rerank : List Candidate → List RankedDoc
  genChunks : List StreamChunk

/-- Result of one compiled-graph run: the final `answer` of the state,
the external calls performed, the `(mode, chunk)` events `astream`
yields, and the fragments `generate_answer_node` pushed to the writer. -/
structure RunResult where
  finalAnswer : String
  calls : List ExtCall
  events : List Event
  fragments : List String

/-- Embeds one execution of the compiled graph under `astream`.
`pre` below is the values event for the input plus the values/updates
events of the `check_context` super-step; no `answer` key exists yet at
those points.  Each later super-step appends its values/updates events,
and `generate_answer` additionally emits one custom event per writer
call, before its step's values/updates events. -/
def runWorkflow (env : RunEnv) : RunResult :=
  let hasContext := checkContextHasContext env.checkResponseText
  let pre : List Event :=
    [⟨.values, none⟩, ⟨.values, none⟩, ⟨.updates, none⟩]
  if hasContext then
    let bothEmpty := env.denseHits.isEmpty && env.sparseHits.isEmpty
    let ru := retrieveRagNode env.denseHits env.sparseHits env.rerank
    let retrieveCalls :=
      [ExtCall.searchDense, ExtCall.searchSparse] ++
        (if bothEmpty then [] else [ExtCall.rerankCall])
    let evRetrieve : List Event := [⟨.values, none⟩, ⟨.updates, none⟩]
    if ru.has_documents then
      let g := generateAnswerNode env.genChunks
      { finalAnswer := g.answer
        calls := ExtCall.invokeCheck :: retrieveCalls ++ [ExtCall.streamGenerate]
        events := pre ++ evRetrieve ++
          g.fragments.map (fun t => ⟨.custom, some t⟩) ++
          [⟨.values, some g.answer⟩, ⟨.updates, none⟩]
        fragments := g.fragments }
    else
      { finalAnswer := cannotAnswerNode
        calls := ExtCall.invokeCheck :: retrieveCalls
        events := pre ++ evRetrieve ++
          [⟨.values, some cannotAnswerNode⟩, ⟨.updates, none⟩]
        fragments := [] }
  else
    { finalAnswer := cannotAnswerNode
      calls := [ExtCall.invokeCheck]
      events := pre ++ [⟨.values, some cannotAnswerNode⟩, ⟨.updates, none⟩]
      fragments := [] }

/-- Python truthiness of `chunk.get("answer")`: a missing key and the
empty string are falsy. -/
def truthyAnswer : Option String → Option String
  | none => none
  | some s => if s = "" then none else some s

/-- Embeds the body of `AgentWorkFlow.stream`: keep events whose mode is
`custom` or `values` and whose `chunk.get("answer")` is truthy, and
yield that answer value. -/
def streamYields (env : RunEnv) : List String :=
  (runWorkflow env).events.filterMap (fun e =>
    if e.mode = StreamMode.custom ∨ e.mode = StreamMode.values then
      truthyAnswer e.answerField
    else none)

/-! ## Usage telemetry (`AgentWorkFlow.__usage_metadata`, lines 229-260)

The method fetches the ambient LangSmith run tree; when there is none it
does nothing, otherwise it attaches a metadata dict to the run tree —
an in-memory dictionary update, which cannot fail the request.  The
embedding returns the usage record attached, if any. -/

/-- The usage numbers placed into the metadata: the source constructs
`UsageMetadata(input_tokens=..., output_tokens=...,
total_tokens=input_tokens + output_tokens)`. -/
structure UsageRecorded where
  model : String
  input_tokens : Nat
  output_tokens : Nat
  total_tokens : Nat
deriving DecidableEq, Repr

/-- Embeds `__usage_metadata`: `run = get_current_run_tree(); if run:
run.add_metadata(...)`.  Returns the record attached to the run tree,
or `none` when no run tree is ambient. -/
def usageMetadataRecord (modelId : String) (run : Option Unit)
    (inputTokens outputTokens : Nat) : Option UsageRecorded :=
  match run with
  | none => none
  | some _ => some ⟨modelId, inputTokens, outputTokens, inputTokens + outputTokens⟩

/-! ## Document ingestion (`KnowledgeBaseService`, lines 21-94) -/

/-- One record upserted to both indexes:
`{"_id": uuid, "chunk_text": chunk, "filename": filename}`. -/
structure IngestRecord where
  _id : String
  chunk_text : String
  filename : String
deriving DecidableEq, Repr

/-- External collaborators of the ingestion service: the PDF and DOCX
readers (which may raise), the UTF-8 text decode with `errors="ignore"`
(which cannot raise), the text splitter, the UUID supply, and the two
index upserts (which may raise).  Errors are exception messages. -/
structure IngestEnv where
  readPdf : List Nat → Except String String
  readDocx : List Nat → Except String String
  readTxt : List Nat → String
  splitText : String → List String
  uuids : Nat → String
  upsertDense : List IngestRecord → Except String Unit
  upsertSparse : List IngestRecord → Except String Unit

/-- Embeds `ext = filename.lower().split(".")[-1]` from
`KnowledgeBaseService._extract_text` (line 69). -/
def fileExt (filename : String) : String :=
  String.mk ((splitDot (filename.toList.map Char.toLower)).getLastD [])

/-- Embeds `KnowledgeBaseService._extract_text` (lines 68-80): dispatch
on the lower-cased final dot-segment of the filename; any other
extension raises `ValueError("Unsupported file type")`. -/
def extractText (env : IngestEnv) (filename : String) (content : List Nat) :
    Except String String :=
  let ext := fileExt filename
  if ext = "pdf" then env.readPdf content
  else if ext = "docx" then env.readDocx content
  else if ext = "txt" then Except.ok (env.readTxt content)
  else Except.error "Unsupported file type"

/-- A FastAPI `JSONResponse` as produced by `upload_document`: status
code plus the optional `detail` field of the body (the success body is
the empty dict). -/
structure JSONResp where
  status : Nat
  detail : Option String
deriving DecidableEq, Repr

/-- The `try` block of `KnowledgeBaseService.upload_document`
(lines 29-58): extract the text, reject empty/whitespace-only text via
`ValueError("No readable text found in document")`, split, build the
records, upsert into both indexes, return an empty 200 response.  Any
raised exception is the `Except.error` case. -/
def uploadDocumentTry (env : IngestEnv) (filename : String)
    (content : List Nat) : Except String JSONResp :=
  match extractText env filename content with
  | Except.error e => Except.error e
  | Except.ok text =>
    if pyStrip text = "" then
      Except.error "No readable text found in document"
    else
      let texts := env.splitText text
      let records :=
        texts.enum.map (fun p => IngestRecord.mk (env.uuids p.1) p.2 filename)
      match env.upsertDense records with
      | Except.error e => Except.error e
      | Except.ok _ =>
        match env.upsertSparse records with
        | Except.error e => Except.error e
        | Except.ok _ => Except.ok ⟨200, none⟩

/-- Embeds `KnowledgeBaseService.upload_document` (lines 21-66): the
`except Exception` handler converts every raised exception into the
constant response `{"detail": "Internal Server Error"}` with status 500,
after printing (not returning) the exception. -/
def uploadDocument (env : IngestEnv) (filename : String)
    (content : List Nat) : JSONResp :=
  match uploadDocumentTry env filename content with
  | Except.ok r => r
  | Except.error _ => ⟨500, some "Internal Server Error"⟩

/-! ## Upload route (`routes/knowledge_base.py`, lines 12-28) -/

/-- An HTTP error raised by the route (`HTTPException`). -/
structure HTTPErr where
  status : Nat
  detail : String
deriving DecidableEq, Repr

/-- Embeds the route's extension guard:
`file.filename.endswith((".pdf", ".docx", ".txt"))` — a case-sensitive
literal suffix check. -/
def routeAccepts (filename : String) : Bool :=
  listEndsWith ".pdf".toList filename.toList ||
    listEndsWith ".docx".toList filename.toList ||
    listEndsWith ".txt".toList filename.toList

/-- Embeds the `upload_document` route handler: reject with a 400
`HTTPException` before the service is reached when the guard fails,
otherwise delegate to `KnowledgeBaseService.upload_document`. -/
def uploadRoute (env : IngestEnv) (filename : String) (content : List Nat) :
    Except HTTPErr JSONResp :=
  if routeAccepts filename then
    Except.ok (uploadDocument env filename content)
  else
    Except.error ⟨400, "Unsupported file type. Please upload a PDF, DOCX, or TXT file."⟩

/-! ## Concrete instances used for counterexamples and witnesses -/

/-- A run in which the context check answers YES, the dense index
returns one hit, the reranker returns every candidate, and the model
streams the answer in two fragments. -/
def envC1 : RunEnv :=
  { prompt := "q"
    checkResponseText := "YES"
    denseHits := [⟨"a", 1, "Paris is the capital of France."⟩]
    sparseHits := []
    rerank := fun cs => cs.map (fun c => ⟨c, 1⟩)
    genChunks := [⟨["Hello "], none⟩, ⟨["world"], some (1, 2)⟩] }

/-- A run in which the context check answers NO. -/
def envNoCtx : RunEnv :=
  { prompt := "q"
    checkResponseText := "NO"
    denseHits := [⟨"a", 1, "text"⟩]
    sparseHits := []
    rerank := fun cs => cs.map (fun c => ⟨c, 1⟩)
    genChunks := [⟨["unused"], none⟩] }

/-- A run in which the context check answers YES but both indexes
return no hits. -/
def envEmptyRetrieval : RunEnv :=
  { prompt := "q"
    checkResponseText := "YES"
    denseHits := []
    sparseHits := []
    rerank := fun cs => cs.map (fun c => ⟨c, 1⟩)
    genChunks := [⟨["unused"], none⟩] }

/-- A sparse-index hit sharing its id with `hitDenseA`. -/
def hitSparseA : Hit := ⟨"a", 1, "sparse text"⟩

/-- A dense-index hit sharing its id with `hitSparseA` but carrying a
different score and text. -/
def hitDenseA : Hit := ⟨"a", 2, "dense text"⟩

/-- A reranker returning one fixed document, for witnesses. -/
def rerankConst : List Candidate → List RankedDoc :=
  fun _ => [⟨⟨"a", "t"⟩, 1⟩]

/-- An ingestion environment whose readers all yield the empty string
and whose upserts succeed, for witnesses. -/
def ingestEnvTrivial : IngestEnv :=
  { readPdf := fun _ => Except.ok ""
    readDocx := fun _ => Except.ok ""
    readTxt := fun _ => ""
    splitText := fun _ => []
    uuids := fun _ => ""
    upsertDense := fun _ => Except.ok ()
    upsertSparse := fun _ => Except.ok () }

/-! ## Helper lemmas -/

theorem listStartsWith_iff (n h : List Char) :
    listStartsWith n h = true ↔ ∃ r, h = n ++ r := by
  induction n generalizing h with
  | nil => simp [listStartsWith]
  | cons a as ih =>
    cases h with
    | nil =>
      simp [listStartsWith]
    | cons b bs =>
      simp only [listStartsWith, Bool.and_eq_true, decide_eq_true_eq, ih,
        List.cons_append, List.cons.injEq]
      constructor
      · rintro ⟨hab, r, hr⟩
        exact ⟨r, hab.symm, hr⟩
      · rintro ⟨r, hab, hr⟩
        exact ⟨hab.symm, r, hr⟩

theorem pyContains_iff (n h : List Char) :
    pyContains n h = true ↔ ∃ l r, h = l ++ n ++ r := by
  induction h with
  | nil =>
    simp only [pyContains, List.isEmpty_iff]
    constructor
    · intro hn; exact ⟨[], [], by simp [hn]⟩
    · rintro ⟨l, r, hr⟩
      rcases List.append_eq_nil.mp hr.symm with ⟨h1, h2⟩
      exact (List.append_eq_nil.mp h1).2
  | cons c cs ih =>
    simp only [pyContains, Bool.or_eq_true, listStartsWith_iff, ih]
    constructor
    · rintro (⟨r, hr⟩ | ⟨l, r, hr⟩)
      · exact ⟨[], r, by simp [hr]⟩
      · exact ⟨c :: l, r, by simp [hr]⟩
    · rintro ⟨l, r, hr⟩
      cases l with
      | nil => exact Or.inl ⟨r, by simpa using hr⟩
      | cons x xs =>
        right
        simp only [List.cons_append, List.cons.injEq] at hr
        exact ⟨xs, r, hr.2⟩

theorem concatFragments_append_singleton (l : List String) (s : String) :
    concatFragments (l ++ [s]) = concatFragments l ++ s := by
  simp [concatFragments, List.foldl_append]

theorem genStep_answer_invariant (acc : GenAccum) (c : StreamChunk)
    (h : acc.answer = concatFragments acc.fragments) :
    (genStep acc c).answer = concatFragments (genStep acc c).fragments := by
  unfold genStep
  cases c.content with
  | nil =>
    cases c.usage_metadata <;> simpa using h
  | cons t ts =>
    cases c.usage_metadata <;>
      simp [concatFragments_append_singleton, h]

theorem foldl_genStep_answer (chunks : List StreamChunk) :
    ∀ acc : GenAccum, acc.answer = concatFragments acc.fragments →
      (chunks.foldl genStep acc).answer =
        concatFragments (chunks.foldl genStep acc).fragments := by
  induction chunks with
  | nil => intro acc h; simpa using h
  | cons c cs ih =>
    intro acc h
    exact ih (genStep acc c) (genStep_answer_invariant acc c h)

theorem generateAnswerNode_answer (chunks : List StreamChunk) :
    (generateAnswerNode chunks).answer =
      concatFragments (generateAnswerNode chunks).fragments := by
  exact foldl_genStep_answer chunks ⟨[], "", 0, 0⟩ rfl

theorem mem_keyOrderAux (l : List String) :
    ∀ (seen : List String) (x : String),
      x ∈ keyOrderAux seen l ↔ x ∈ l ∧ x ∉ seen := by
  induction l with
  | nil => intro seen x; simp [keyOrderAux]
  | cons a as ih =>
    intro seen x
    by_cases ha : a ∈ seen
    · rw [keyOrderAux, if_pos ha, ih]
      constructor
      · rintro ⟨hx, hs⟩; exact ⟨List.mem_cons_of_mem _ hx, hs⟩
      · rintro ⟨hx, hs⟩
        rcases List.mem_cons.mp hx with rfl | hx'
        · exact absurd ha hs
        · exact ⟨hx', hs⟩
    · rw [keyOrderAux, if_neg ha]
      constructor
      · intro hx
        rcases List.mem_cons.mp hx with rfl | hx'
        · exact ⟨List.mem_cons_self _ _, ha⟩
        · rcases (ih _ _).mp hx' with ⟨h1, h2⟩
          exact ⟨List.mem_cons_of_mem _ h1,
            fun hs => h2 (List.mem_cons_of_mem _ hs)⟩
      · rintro ⟨hx, hs⟩
        rcases List.mem_cons.mp hx with rfl | hx'
        · exact List.mem_cons_self _ _
        · by_cases hxa : x = a
          · subst hxa; exact List.mem_cons_self _ _
          · refine List.mem_cons_of_mem _ ((ih _ _).mpr ⟨hx', fun hmem => ?_⟩)
            rcases List.mem_cons.mp hmem with h | h
            · exact hxa h
            · exact hs h

theorem nodup_keyOrderAux (l : List String) :
    ∀ seen : List String, (keyOrderAux seen l).Nodup := by
  induction l with
  | nil => intro seen; simp [keyOrderAux]
  | cons a as ih =>
    intro seen
    by_cases ha : a ∈ seen
    · simpa [keyOrderAux, if_pos ha] using ih seen
    · simp only [keyOrderAux, if_neg ha, List.nodup_cons]
      refine ⟨fun hmem => ?_, ih (a :: seen)⟩
      exact ((mem_keyOrderAux as (a :: seen) a).mp hmem).2 (List.mem_cons_self a seen)

theorem mem_keyOrder (l : List String) (x : String) :
    x ∈ keyOrder l ↔ x ∈ l := by
  simp [keyOrder, mem_keyOrderAux]

theorem nodup_keyOrder (l : List String) : (keyOrder l).Nodup :=
  nodup_keyOrderAux l []

theorem lastWithId_append_singleton (l : List Hit) (a : Hit) (i : String) :
    lastWithId (l ++ [a]) i = if a._id = i then some a else lastWithId l i := by
  simp [lastWithId, List.foldl_append]

theorem lastWithId_id (l : List Hit) (i : String) :
    ∀ h : Hit, lastWithId l i = some h → h._id = i := by
  induction l using List.reverseRecOn with
  | nil => intro h hh; simp [lastWithId] at hh
  | append_singleton l a ih =>
    intro h hh
    rw [lastWithId_append_singleton] at hh
    by_cases ha : a._id = i
    · rw [if_pos ha] at hh
      cases hh; exact ha
    · rw [if_neg ha] at hh
      exact ih h hh

theorem lastWithId_mem (l : List Hit) (i : String) :
    ∀ h : Hit, lastWithId l i = some h → h ∈ l := by
  induction l using List.reverseRecOn with
  | nil => intro h hh; simp [lastWithId] at hh
  | append_singleton l a ih =>
    intro h hh
    rw [lastWithId_append_singleton] at hh
    by_cases ha : a._id = i
    · rw [if_pos ha] at hh
      cases hh; simp
    · rw [if_neg ha] at hh
      exact List.mem_append_left _ (ih h hh)

theorem lastWithId_eq_none_iff (l : List Hit) (i : String) :
    lastWithId l i = none ↔ ∀ h ∈ l, ¬ (h._id = i) := by
  induction l using List.reverseRecOn with
  | nil => simp [lastWithId]
  | append_singleton l a ih =>
    rw [lastWithId_append_singleton]
    by_cases ha : a._id = i
    · simp only [if_pos ha]
      constructor
      · intro h; exact absurd h (by simp)
      · intro hall; exact absurd ha (hall a (by simp))
    · simp only [if_neg ha, ih]
      constructor
      · intro hall h hmem
        rcases List.mem_append.mp hmem with hl | hr
        · exact hall h hl
        · rcases List.mem_singleton.mp hr with rfl
          exact ha
      · intro hall h hmem
        exact hall h (List.mem_append_left _ hmem)

theorem lastWithId_append (l₁ l₂ : List Hit) (i : String) :
    lastWithId (l₁ ++ l₂) i =
      match lastWithId l₂ i with
      | some h => some h
      | none => lastWithId l₁ i := by
  induction l₂ using List.reverseRecOn with
  | nil => simp [lastWithId]
  | append_singleton l a ih =>
    rw [← List.append_assoc, lastWithId_append_singleton,
      lastWithId_append_singleton]
    by_cases ha : a._id = i
    · simp [if_pos ha]
    · simp only [if_neg ha, ih]

theorem filterMap_id_like (ks : List String) (f : String → Option String)
    (h : ∀ k ∈ ks, f k = some k) : ks.filterMap f = ks := by
  induction ks with
  | nil => simp
  | cons k ks ih =>
    rw [List.filterMap_cons, h k (List.mem_cons_self _ _),
      ih (fun x hx => h x (List.mem_cons_of_mem _ hx))]

theorem map_id_pyDictDedup (l : List Hit) :
    (pyDictDedup l).map Hit._id = keyOrder (l.map Hit._id) := by
  unfold pyDictDedup
  rw [List.map_filterMap]
  apply filterMap_id_like
  intro k hk
  have hk' : k ∈ l.map Hit._id := (mem_keyOrder _ _).mp hk
  rcases List.mem_map.mp hk' with ⟨h, hmem, hid⟩
  cases heq : lastWithId l k with
  | none =>
    exact absurd hid ((lastWithId_eq_none_iff l k).mp heq h hmem)
  | some h' =>
    simp [lastWithId_id l k h' heq]

theorem nodup_ids_pyDictDedup (l : List Hit) :
    ((pyDictDedup l).map Hit._id).Nodup := by
  rw [map_id_pyDictDedup]
  exact nodup_keyOrder _

theorem mem_ids_pyDictDedup (l : List Hit) (i : String) :
    i ∈ (pyDictDedup l).map Hit._id ↔ i ∈ l.map Hit._id := by
  rw [map_id_pyDictDedup, mem_keyOrder]

theorem filter_filterMap_lastWithId (l : List Hit) (i : String) :
    ∀ ks : List String, ks.Nodup →
      (ks.filterMap (lastWithId l)).filter (fun h => h._id = i) =
        if i ∈ ks then (lastWithId l i).toList else [] := by
  intro ks
  induction ks with
  | nil => simp
  | cons k ks ih =>
    intro hnd
    rcases List.nodup_cons.mp hnd with ⟨hk, hnd'⟩
    rw [List.filterMap_cons]
    by_cases hki : k = i
    · subst hki
      cases heq : lastWithId l k with
      | none =>
        rw [ih hnd', if_neg hk]
        simp [heq]
      | some h =>
        have hid : h._id = k := lastWithId_id l k h heq
        rw [List.filter_cons, ih hnd', if_neg hk]
        simp [hid, heq]
    · have hik : ¬ i = k := fun h => hki h.symm
      cases heq : lastWithId l k with
      | none =>
        rw [ih hnd']
        by_cases hmem : i ∈ ks <;> simp [hmem, hik]
      | some h =>
        have hid : ¬ (h._id = i) := by
          rw [lastWithId_id l k h heq]; exact hki
        rw [List.filter_cons, ih hnd']
        by_cases hmem : i ∈ ks <;> simp [hmem, hik, hid]

theorem filter_pyDictDedup (l : List Hit) (i : String) :
    (pyDictDedup l).filter (fun h => h._id = i) = (lastWithId l i).toList := by
  unfold pyDictDedup
  rw [filter_filterMap_lastWithId l i _ (nodup_keyOrder _)]
  by_cases hmem : i ∈ keyOrder (l.map Hit._id)
  · rw [if_pos hmem]
  · rw [if_neg hmem]
    have : i ∉ l.map Hit._id := fun h => hmem ((mem_keyOrder _ _).mpr h)
    cases heq : lastWithId l i with
    | none => simp
    | some h =>
      exact absurd (List.mem_map.mpr
        ⟨h, lastWithId_mem l i h heq, lastWithId_id l i h heq⟩) this

theorem insertDesc_perm (x : Hit) (l : List Hit) :
    (insertDesc x l).Perm (x :: l) := by
  induction l with
  | nil => simp [insertDesc]
  | cons y ys ih =>
    rw [insertDesc]
    by_cases h : y._score ≤ x._score
    · rw [if_pos h]
    · rw [if_neg h]
      exact (ih.cons y).trans (List.Perm.swap x y ys)

theorem sortDesc_perm (l : List Hit) : (sortDesc l).Perm l := by
  induction l with
  | nil => simp [sortDesc]
  | cons a l ih =>
    have : sortDesc (a :: l) = insertDesc a (sortDesc l) := rfl
    rw [this]
    exact (insertDesc_perm a (sortDesc l)).trans (ih.cons a)

theorem pairwise_insertDesc (x : Hit) (l : List Hit)
    (hl : l.Pairwise (fun a b => b._score ≤ a._score)) :
    (insertDesc x l).Pairwise (fun a b => b._score ≤ a._score) := by
  induction l with
  | nil => simp [insertDesc]
  | cons y ys ih =>
    rcases List.pairwise_cons.mp hl with ⟨hy, hys⟩
    rw [insertDesc]
    by_cases h : y._score ≤ x._score
    · rw [if_pos h]
      refine List.pairwise_cons.mpr ⟨?_, hl⟩
      intro z hz
      rcases List.mem_cons.mp hz with rfl | hz'
      · exact h
      · exact le_trans (hy z hz') h
    · rw [if_neg h]
      refine List.pairwise_cons.mpr ⟨?_, ih hys⟩
      intro z hz
      have hz' : z ∈ x :: ys := (insertDesc_perm x ys).mem_iff.mp hz
      rcases List.mem_cons.mp hz' with rfl | hz''
      · exact le_of_not_le h
      · exact hy z hz''

theorem pairwise_sortDesc (l : List Hit) :
    (sortDesc l).Pairwise (fun a b => b._score ≤ a._score) := by
  induction l with
  | nil => simp [sortDesc]
  | cons a l ih => exact pairwise_insertDesc a (sortDesc l) ih

theorem filter_score_insertDesc (x : Hit) (l : List Hit) (q : ℚ) :
    (insertDesc x l).filter (fun h => h._score = q) =
      if x._score = q then x :: l.filter (fun h => h._score = q)
      else l.filter (fun h => h._score = q) := by
  induction l with
  | nil =>
    by_cases hx : x._score = q <;> simp [insertDesc, hx]
  | cons y ys ih =>
    rw [insertDesc]
    by_cases h : y._score ≤ x._score
    · rw [if_pos h]
      by_cases hx : x._score = q <;> simp [List.filter_cons, hx]
    · rw [if_neg h]
      have hlt : x._score < y._score := lt_of_not_le h
      by_cases hx : x._score = q
      · have hy : ¬ (y._score = q) := by
          intro hyq
          exact absurd (hx ▸ hyq ▸ hlt) (lt_irrefl _)
        rw [List.filter_cons, List.filter_cons]
        simp only [hy, decide_eq_true_eq, if_pos hx, ih, if_pos hx]
        simp [hy]
      · rw [List.filter_cons, List.filter_cons]
        by_cases hy : y._score = q <;>
          simp [hy, ih, hx]

theorem filter_score_sortDesc (l : List Hit) (q : ℚ) :
    (sortDesc l).filter (fun h => h._score = q) =
      l.filter (fun h => h._score = q) := by
  induction l with
  | nil => simp [sortDesc]
  | cons a l ih =>
    have : sortDesc (a :: l) = insertDesc a (sortDesc l) := rfl
    rw [this, filter_score_insertDesc, List.filter_cons]
    by_cases ha : a._score = q <;> simp [ha, ih]

theorem filterMap_custom_fragments (l : List String) :
    (l.map (fun t => Event.mk StreamMode.custom (some t))).filterMap
      (fun e =>
        if e.mode = StreamMode.custom ∨ e.mode = StreamMode.values then
          truthyAnswer e.answerField
        else none) =
      l.filter (fun s => ¬ (s = "")) := by
  induction l with
  | nil => rfl
  | cons s l ih =>
    rw [List.map_cons, List.filterMap_cons, List.filter_cons]
    by_cases hs : s = ""
    · simpa [truthyAnswer, hs] using ih
    · simpa [truthyAnswer, hs] using ih

theorem refusalText_ne_empty : ¬ (refusalText = "") := by decide

/-! ## Claims -/

/-- C1, as stated, is false on the code: `stream` subscribes to both the
`custom` and the `values` stream modes and filters only on
`chunk.get("answer")`, so after `generate_answer` finishes the values
event re-emits the complete accumulated answer after the incremental
fragments.  On the concrete run `envC1` the yielded sequence is
`["Hello ", "world", "Hello world"]`, whose concatenation is the final
answer twice, not once. -/
theorem C1_counterexample :
    ¬ (concatFragments (streamYields envC1) = (runWorkflow envC1).finalAnswer) := by
  decide

/-- C1 (amended): for every run, `stream` yields the non-empty writer
fragments of the generation node in the order produced, followed by one
extra values-mode emission of the complete final answer whenever that
answer is non-empty; the concatenation of the writer fragments alone
equals the final answer on generation runs, and on refusal runs the
stream yields exactly the fixed refusal text (so only there does the
concatenation of everything yielded equal the final answer). -/
theorem C1_amended_stream_characterization (env : RunEnv) :
    streamYields env =
      (runWorkflow env).fragments.filter (fun s => ¬ (s = "")) ++
        (if (runWorkflow env).finalAnswer = "" then []
         else [(runWorkflow env).finalAnswer]) ∧
    ((runWorkflow env).finalAnswer =
        concatFragments (runWorkflow env).fragments ∨
      ((runWorkflow env).fragments = [] ∧
        (runWorkflow env).finalAnswer = refusalText)) := by
  by_cases h1 : checkContextHasContext env.checkResponseText
  · by_cases h2 :
        (retrieveRagNode env.denseHits env.sparseHits env.rerank).has_documents
    · constructor
      · simp only [streamYields, runWorkflow, h1, if_true, h2,
          List.filterMap_append, filterMap_custom_fragments]
        by_cases h3 : (generateAnswerNode env.genChunks).answer = "" <;>
          simp [truthyAnswer, h3]
      · left
        simp [runWorkflow, h1, h2, generateAnswerNode_answer]
    · constructor
      · simp only [streamYields, runWorkflow, h1, if_true, h2, if_false,
          List.filterMap_append]
        simp [truthyAnswer, refusalText_ne_empty, cannotAnswerNode]
      · right
        simp [runWorkflow, h1, h2, cannotAnswerNode]
  · constructor
    · simp only [streamYields, runWorkflow, h1, if_false,
        List.filterMap_append]
      simp [truthyAnswer, refusalText_ne_empty, cannotAnswerNode]
    · right
      simp [runWorkflow, h1, cannotAnswerNode]

/-- C2: whenever the context-check verdict is negative (the response
text does not contain "YES" after upper-casing), the run produces
exactly the fixed refusal string, the stream yields it exactly once,
and the only external call performed is the context-check invocation:
no retrieval, rerank or generation call happens. -/
theorem C2_negative_verdict_refusal_no_calls (env : RunEnv)
    (h : checkContextHasContext env.checkResponseText = false) :
    (runWorkflow env).finalAnswer = refusalText ∧
    streamYields env = [refusalText] ∧
    (runWorkflow env).calls = [ExtCall.invokeCheck] ∧
    ExtCall.searchDense ∉ (runWorkflow env).calls ∧
    ExtCall.searchSparse ∉ (runWorkflow env).calls ∧
    ExtCall.rerankCall ∉ (runWorkflow env).calls ∧
    ExtCall.streamGenerate ∉ (runWorkflow env).calls := by
  have h' : ¬ (checkContextHasContext env.checkResponseText = true) := by
    simp [h]
  refine ⟨?_, ?_, ?_, ?_, ?_, ?_, ?_⟩ <;>
    simp [streamYields, runWorkflow, h', truthyAnswer,
      refusalText_ne_empty, cannotAnswerNode]

/-- C2 witness: a concrete run whose context check answers "NO". -/
theorem C2_witness :
    (runWorkflow envNoCtx).finalAnswer = refusalText ∧
    streamYields envNoCtx = [refusalText] ∧
    (runWorkflow envNoCtx).calls = [ExtCall.invokeCheck] :=
  ⟨(C2_negative_verdict_refusal_no_calls envNoCtx (by decide)).1,
   (C2_negative_verdict_refusal_no_calls envNoCtx (by decide)).2.1,
   (C2_negative_verdict_refusal_no_calls envNoCtx (by decide)).2.2.1⟩

/-- C3: the context-check verdict is true exactly when the model's
response text contains the substring "YES" case-insensitively (after
character-wise upper-casing); every other text, including the empty
text, gives a negative verdict, and the check is a total function of
the response text. -/
theorem C3_has_context_iff_contains_yes (responseText : String) :
    checkContextHasContext responseText = true ↔
      containsYesCaseInsensitive responseText := by
  unfold checkContextHasContext containsYesCaseInsensitive
  rw [pyContains_iff]

/-- C4: with a positive context verdict but both index searches empty,
the retrieval node reports `has_documents == false`, the reranker is
never invoked, and the run yields exactly the refusal text. -/
theorem C4_empty_retrieval_refusal_no_rerank (env : RunEnv)
    (h : checkContextHasContext env.checkResponseText = true)
    (hd : env.denseHits = []) (hs : env.sparseHits = []) :
    (retrieveRagNode env.denseHits env.sparseHits env.rerank).has_documents
        = false ∧
    ExtCall.rerankCall ∉ (runWorkflow env).calls ∧
    (runWorkflow env).finalAnswer = refusalText ∧
    streamYields env = [refusalText] := by
  have hru : retrieveRagNode ([] : List Hit) [] env.rerank = ⟨false, none⟩ := by
    simp [retrieveRagNode]
  refine ⟨?_, ?_, ?_, ?_⟩ <;>
    simp [streamYields, runWorkflow, h, hd, hs, hru, truthyAnswer,
      refusalText_ne_empty, cannotAnswerNode]

/-- C4 witness: a concrete run with a YES verdict and empty indexes. -/
theorem C4_witness :
    (retrieveRagNode envEmptyRetrieval.denseHits envEmptyRetrieval.sparseHits
        envEmptyRetrieval.rerank).has_documents = false ∧
    (runWorkflow envEmptyRetrieval).finalAnswer = refusalText ∧
    streamYields envEmptyRetrieval = [refusalText] :=
  ⟨(C4_empty_retrieval_refusal_no_rerank envEmptyRetrieval (by decide) rfl rfl).1,
   (C4_empty_retrieval_refusal_no_rerank envEmptyRetrieval (by decide) rfl rfl).2.2.1,
   (C4_empty_retrieval_refusal_no_rerank envEmptyRetrieval (by decide) rfl rfl).2.2.2⟩

/-- C5: the merge stage deduplicates by identifier equality (the id list
of the output is duplicate-free and covers exactly the ids occurring in
either input), sorts the deduplicated hits by relevance score
descending, the sort is stable (for every score value, the hits carrying
that score appear in the same relative order as in the deduplicated
merge), and the stage's final output is the projection of that sorted
list to `{_id, chunk_text}` candidates. -/
theorem C5_merge_dedup_sorted_stable (h1 h2 : List Hit) :
    ((mergeSortedHits h1 h2).map Hit._id).Nodup ∧
    (∀ i, i ∈ (mergeSortedHits h1 h2).map Hit._id ↔
      i ∈ (h1 ++ h2).map Hit._id) ∧
    (mergeSortedHits h1 h2).Pairwise (fun a b => b._score ≤ a._score) ∧
    (∀ q : ℚ, (mergeSortedHits h1 h2).filter (fun h => h._score = q) =
      (pyDictDedup (h1 ++ h2)).filter (fun h => h._score = q)) ∧
    mergeChunks h1 h2 = (mergeSortedHits h1 h2).map toCandidate := by
  refine ⟨?_, ?_, pairwise_sortDesc _, fun q => filter_score_sortDesc _ q, rfl⟩
  · exact ((sortDesc_perm _).map Hit._id).nodup_iff.mpr (nodup_ids_pyDictDedup _)
  · intro i
    unfold mergeSortedHits
    rw [((sortDesc_perm _).map Hit._id).mem_iff, mem_ids_pyDictDedup]

/-- C6: after the retrieval node, `has_documents` is true exactly when
a non-empty document list was stored in the state, and outside the
short-circuit case (at least one index returned hits) `has_documents`
is true exactly when the reranker returned a non-empty list. -/
theorem C6_has_documents_invariant (dense sparse : List Hit)
    (rf : List Candidate → List RankedDoc) :
    ((retrieveRagNode dense sparse rf).has_documents = true ↔
      ∃ l, (retrieveRagNode dense sparse rf).documents = some l ∧ l ≠ []) ∧
    ((dense ≠ [] ∨ sparse ≠ []) →
      ((retrieveRagNode dense sparse rf).has_documents = true ↔
        rf (mergeChunks sparse dense) ≠ [])) := by
  unfold retrieveRagNode
  by_cases hde : (dense.isEmpty && sparse.isEmpty) = true
  · rw [if_pos hde]
    simp only [Bool.and_eq_true, List.isEmpty_iff] at hde
    constructor
    · simp
    · rintro (hne | hne)
      · exact absurd hde.1 hne
      · exact absurd hde.2 hne
  · rw [if_neg hde]
    constructor
    · simp [List.isEmpty_iff]
    · intro _
      simp [List.isEmpty_iff]

/-- C6 witness: one dense hit, a reranker returning one document. -/
theorem C6_witness :
    ((retrieveRagNode [hitDenseA] [] rerankConst).has_documents = true ↔
      rerankConst (mergeChunks [] [hitDenseA]) ≠ []) ∧
    (retrieveRagNode [hitDenseA] [] rerankConst).has_documents = true :=
  ⟨(C6_has_documents_invariant [hitDenseA] [] rerankConst).2
      (Or.inl (by simp)),
   by decide⟩

theorem uploadDocumentTry_ok (env : IngestEnv) (f : String) (c : List Nat)
    (r : JSONResp) (h : uploadDocumentTry env f c = Except.ok r) :
    r = ⟨200, none⟩ := by
  unfold uploadDocumentTry at h
  split at h
  · exact absurd h (by simp)
  · split at h
    · exact absurd h (by simp)
    · dsimp only at h
      split at h
      · exact absurd h (by simp)
      · split at h
        · exact absurd h (by simp)
        · simpa using h.symm

/-- C7: `upload_document` is total on its inputs and every outcome is
either the empty 200 success response or the constant generic 500
response whose body carries no exception detail; in particular an
extracted text that strips to empty always produces the generic 500
response. -/
theorem C7_upload_total_generic_failure (env : IngestEnv) (f : String)
    (c : List Nat) :
    (uploadDocument env f c = ⟨200, none⟩ ∨
      uploadDocument env f c = ⟨500, some "Internal Server Error"⟩) ∧
    (∀ t, extractText env f c = Except.ok t → pyStrip t = "" →
      uploadDocument env f c = ⟨500, some "Internal Server Error"⟩) := by
  constructor
  · cases htry : uploadDocumentTry env f c with
    | ok r =>
      left
      unfold uploadDocument
      rw [htry]
      exact uploadDocumentTry_ok env f c r htry
    | error e =>
      right
      unfold uploadDocument
      rw [htry]
  · intro t hext hst
    unfold uploadDocument uploadDocumentTry
    rw [hext]
    simp [hst]

/-- C7 witness: a whitespace-only (empty) extracted text on a `.txt`
upload yields the generic 500 response. -/
theorem C7_witness :
    uploadDocument ingestEnvTrivial "a.txt" [] =
      ⟨500, some "Internal Server Error"⟩ :=
  (C7_upload_total_generic_failure ingestEnvTrivial "a.txt" []).2 ""
    (by rfl) (by decide)

/-- C8: the usage-report step is a total function of the ambient run
tree and the token counts: with no ambient run tree it records nothing,
otherwise it records exactly the two token counts with the total equal
to their sum; no failure can propagate because the whole step is a pure
in-memory metadata update. -/
theorem C8_usage_telemetry (modelId : String) (i o : Nat) :
    usageMetadataRecord modelId none i o = none ∧
    (∀ r : Unit, usageMetadataRecord modelId (some r) i o =
      some ⟨modelId, i, o, i + o⟩) ∧
    (∀ (run : Option Unit) (rec : UsageRecorded),
      usageMetadataRecord modelId run i o = some rec →
      rec.total_tokens = rec.input_tokens + rec.output_tokens) := by
  refine ⟨rfl, fun r => rfl, ?_⟩
  intro run rec h
  cases run with
  | none => exact absurd h (by simp [usageMetadataRecord])
  | some r =>
    have h' := Option.some.inj h
    rw [← h']

/-- C8 witness: with an ambient run tree, the recorded totals add up. -/
theorem C8_witness :
    usageMetadataRecord "model" (some ()) 2 3 = some ⟨"model", 2, 3, 5⟩ :=
  (C8_usage_telemetry "model" 2 3).2.1 ()

/-- C9: when the dense result list contains a hit with identifier `i`,
the single entry for `i` surviving the merge stage (in the stage's
actual call order: sparse results first, dense second) is the last
dense hit with that identifier, score and text included — the dict
comprehension keeps the last-inserted hit per key and the dense hits
are inserted after the sparse ones. -/
theorem C9_dedup_prefers_dense (sparse dense : List Hit) (i : String)
    (h : dense.filter (fun x => x._id = i) ≠ []) :
    (mergeSortedHits sparse dense).filter (fun x => x._id = i) =
      (lastWithId dense i).toList := by
  have hsome : lastWithId dense i ≠ none := by
    intro hnone
    apply h
    rw [List.filter_eq_nil_iff]
    intro a ha
    simpa using (lastWithId_eq_none_iff dense i).mp hnone a ha
  obtain ⟨hd, hhd⟩ := Option.ne_none_iff_exists'.mp hsome
  have hdd : lastWithId (sparse ++ dense) i = some hd := by
    rw [lastWithId_append, hhd]
  have hfil : (pyDictDedup (sparse ++ dense)).filter (fun x => x._id = i)
      = [hd] := by
    rw [filter_pyDictDedup, hdd]
    rfl
  have hperm :=
    (sortDesc_perm (pyDictDedup (sparse ++ dense))).filter
      (fun x => decide (x._id = i))
  rw [hfil] at hperm
  rw [hhd]
  simpa using List.perm_singleton.mp hperm

/-- C9 witness: one sparse and one dense hit share the id "a"; the
dense one survives. -/
theorem C9_witness :
    (mergeSortedHits [hitSparseA] [hitDenseA]).filter (fun x => x._id = "a")
        = (lastWithId [hitDenseA] "a").toList ∧
    (lastWithId [hitDenseA] "a").toList = [hitDenseA] :=
  ⟨C9_dedup_prefers_dense [hitSparseA] [hitDenseA] "a" (by decide), by decide⟩

/-- C10: the ingestion service's extension dispatch is case-insensitive
(it depends only on the lower-cased filename, and a lower-cased final
dot-segment equal to pdf/docx/txt selects the matching reader instead
of raising "Unsupported file type" — in particular "file.PDF" reaches
the PDF reader), while the upload route's guard is a case-sensitive
literal suffix check that rejects "file.PDF" with a 400 error before
the service is reached. -/
theorem C10_extension_case_inconsistency (env : IngestEnv) (c : List Nat)
    (f g : String) :
    (pyLower f = pyLower g → fileExt f = fileExt g) ∧
    (fileExt f = "pdf" → extractText env f c = env.readPdf c) ∧
    (fileExt f = "docx" → extractText env f c = env.readDocx c) ∧
    (fileExt f = "txt" → extractText env f c = Except.ok (env.readTxt c)) ∧
    extractText env "file.PDF" c = env.readPdf c ∧
    routeAccepts "file.PDF" = false ∧
    uploadRoute env "file.PDF" c =
      Except.error
        ⟨400, "Unsupported file type. Please upload a PDF, DOCX, or TXT file."⟩ := by
  refine ⟨?_, ?_, ?_, ?_, ?_, by decide, ?_⟩
  · intro hlg
    have hlist : f.toList.map Char.toLower = g.toList.map Char.toLower :=
      congrArg String.data hlg
    unfold fileExt
    rw [hlist]
  · intro h
    unfold extractText
    rw [h]
    rfl
  · intro h
    unfold extractText
    rw [h]
    rfl
  · intro h
    unfold extractText
    rw [h]
    rfl
  · unfold extractText
    rw [(by decide : fileExt "file.PDF" = "pdf")]
    rfl
  · unfold uploadRoute
    rw [(by decide : routeAccepts "file.PDF" = false)]
    simp

/-- C10 witness: "A.PDF" and "a.pdf" have the same extension dispatch,
"file.PDF" reaches the PDF reader in the service but is rejected by the
route with a 400. -/
theorem C10_witness :
    fileExt "A.PDF" = fileExt "a.pdf" ∧
    extractText ingestEnvTrivial "file.PDF" [] = ingestEnvTrivial.readPdf [] ∧
    uploadRoute ingestEnvTrivial "file.PDF" [] =
      Except.error
        ⟨400, "Unsupported file type. Please upload a PDF, DOCX, or TXT file."⟩ :=
  ⟨(C10_extension_case_inconsistency ingestEnvTrivial [] "A.PDF" "a.pdf").1
      (by decide),
   (C10_extension_case_inconsistency ingestEnvTrivial [] "x" "x").2.2.2.2.1,
   (C10_extension_case_inconsistency ingestEnvTrivial [] "x" "x").2.2.2.2.2.2⟩

end RagWorkflow
